import Mathlib

/-!
Shallow embedding of `src/daos/mongodb_client.py` (class `MongoDBClient`).

Python dictionaries (documents and queries) are modelled as ordered
association lists without duplicate keys; `setVal` is `d[k] = v`
(overwrite in place, append when absent), `getVal` is `d.get(k)`.
The pymongo collection is modelled as an ordered list of documents
together with a counter supplying fresh generated identifiers
(standing for ObjectId generation on documents lacking `_id`).

Because the Python code mutates caller-supplied dictionaries in place
(`query["is_deleted"] = False`, `data["is_deleted"] = False`), each
client operation that performs such a mutation returns, alongside its
result, the document/query mapping as the caller observes it after the
call; in the source that mapping is the very object handed to the
driver, so the same component is also the query actually executed.
-/

namespace GngBackend

/-- BSON-style scalar values appearing in documents and queries. -/
inductive Value where
  | vInt (n : Int)
  | vStr (s : String)
  | vBool (b : Bool)
deriving DecidableEq

/-- A document (or query): a Python dict from field names to values,
modelled as an ordered association list without duplicate keys. -/
abbrev Doc := List (String × Value)

/-- Dictionary lookup `d.get(k)`. -/
def getVal : Doc → String → Option Value
  | [], _ => none
  | p :: rest, k => if p.1 = k then some p.2 else getVal rest k

/-- Dictionary assignment `d[k] = v`: overwrite the existing entry for
`k`, or append a new entry at the end (Python dict insertion order). -/
def setVal : Doc → String → Value → Doc
  | [], k, v => [(k, v)]
  | p :: rest, k, v => if p.1 = k then (k, v) :: rest else p :: setVal rest k v

/-- Mongo exact-match semantics of a query document: every entry of the
query must be present in the document with the same value. -/
def matchesQuery (d : Doc) : Doc → Bool
  | [] => true
  | p :: rest => decide (getVal d p.1 = some p.2) && matchesQuery d rest

/-- Semantics of a Mongo update with operator `$set`: each field of the
update document is written into the target document. -/
def applySet (d u : Doc) : Doc := u.foldl (fun acc p => setVal acc p.1 p.2) d

/-- Rank used to compare values of different BSON types when sorting. -/
def valueRank : Value → Nat
  | .vInt _ => 0
  | .vStr _ => 1
  | .vBool _ => 2

/-- Total boolean order on values, used by the sort model. -/
def valueLe (a b : Value) : Bool :=
  match a, b with
  | .vInt m, .vInt n => decide (m ≤ n)
  | .vStr s, .vStr t => decide (s ≤ t)
  | .vBool x, .vBool y => !x || y
  | a, b => decide (valueRank a ≤ valueRank b)

/-- Order on optional values: a missing field sorts first (Mongo treats
a missing sort key as null, which sorts before concrete values). -/
def optValueLe : Option Value → Option Value → Bool
  | none, _ => true
  | some _, none => false
  | some a, some b => valueLe a b

/-- Lexicographic comparison of two documents under a pymongo sort
specification: a list of (field, direction) pairs, direction `1`
ascending and `-1` descending. -/
def docLe (sp : List (String × Int)) (d1 d2 : Doc) : Bool :=
  match sp with
  | [] => true
  | (k, dir) :: rest =>
    let a := getVal d1 k
    let b := getVal d2 k
    if a = b then docLe rest d1 d2
    else if dir < 0 then optValueLe b a else optValueLe a b

/-- Insert an element into a list sorted by `le`, before the first
element it is `le`-below (stable insertion). -/
def insertLe {α : Type} (le : α → α → Bool) (x : α) : List α → List α
  | [] => [x]
  | y :: ys => if le x y then x :: y :: ys else y :: insertLe le x ys

/-- Stable insertion sort modelling `cursor.sort(...)`. -/
def insertionSort {α : Type} (le : α → α → Bool) : List α → List α
  | [] => []
  | x :: xs => insertLe le x (insertionSort le xs)

/-- A Mongo collection: its documents in natural (insertion) order plus
a counter of fresh generated identifiers. -/
structure Collection where
  docs : List Doc
  nextId : Nat
deriving DecidableEq

/-- Driver-level `collection.insert_one(data)`: if the document lacks
`_id`, pymongo generates one, writes it into the caller document in
place, and stores the document; `inserted_id` is the `_id` under which
the document was stored.  The third component is the caller document as
observed after the call. -/
def insertDoc (c : Collection) (data : Doc) : Collection × Value × Doc :=
  match getVal data "_id" with
  | some v => ({ c with docs := c.docs ++ [data] }, v, data)
  | none =>
    let stored := setVal data "_id" (Value.vInt c.nextId)
    ({ docs := c.docs ++ [stored], nextId := c.nextId + 1 }, Value.vInt c.nextId, stored)

/-- Driver-level `collection.insert_many(data_list)`: ordered insert of
each document in turn, collecting the generated identifiers in input
order and the caller documents as observed after the call. -/
def insertManyDocs : Collection → List Doc → Collection × List Value × List Doc
  | c, [] => (c, [], [])
  | c, d :: ds =>
    let r1 := insertDoc c d
    let r2 := insertManyDocs r1.1 ds
    (r2.1, r1.2.1 :: r2.2.1, r1.2.2 :: r2.2.2)

/-- Driver-level `collection.update_one(query, set)`: apply the `$set`
fields to the first matching document.  Returns the new document list,
the matched count, and the modified count (a document counts as
modified only when the update actually changed it). -/
def updateFirstDoc (q u : Doc) : List Doc → List Doc × Nat × Nat
  | [] => ([], 0, 0)
  | d :: rest =>
    if matchesQuery d q then
      let d2 := applySet d u
      (d2 :: rest, 1, if d2 = d then 0 else 1)
    else
      let r := updateFirstDoc q u rest
      (d :: r.1, r.2.1, r.2.2)

/-- Documents after a driver-level `update_many`: the `$set` fields are
applied to every matching document. -/
def updateAllDocs (q u : Doc) (docs : List Doc) : List Doc :=
  docs.map (fun d => if matchesQuery d q then applySet d u else d)

/-- Driver-level `collection.delete_one(query)`: remove the first
matching document; returns the new list and the deleted count. -/
def deleteFirstDoc (q : Doc) : List Doc → List Doc × Nat
  | [] => ([], 0)
  | d :: rest =>
    if matchesQuery d q then (rest, 1)
    else
      let r := deleteFirstDoc q rest
      (d :: r.1, r.2)

/-- Aggregation pipeline stages used by this layer; only filtering
stages matter for the claims about soft-delete bypass. -/
inductive Stage where
  | matchStage (q : Doc)
deriving DecidableEq

/-- Driver-level `collection.aggregate(pipeline)`: run the stages in
order over the documents. -/
def runPipeline : List Stage → List Doc → List Doc
  | [], docs => docs
  | Stage.matchStage q :: rest, docs =>
      runPipeline rest (docs.filter (fun d => matchesQuery d q))

/-- Python values returned by the mutation methods of `MongoDBClient`:
pymongo result objects (`UpdateResult` with matched and modified
counts, `DeleteResult` with a deleted count) or a bare integer. -/
inductive OpReturn where
  | updateRes (matched modified : Nat)
  | deleteRes (deleted : Nat)
  | intVal (n : Nat)
deriving DecidableEq

/-- Whether a returned Python value is a bare integer count. -/
def isIntReturn : OpReturn → Bool
  | .intVal _ => true
  | _ => false

/-- `MongoDBClient.insert_one` (lines 86-93): sets `is_deleted = False`
on the caller document, inserts it, and returns `result.inserted_id`.
The third component is the caller document after its in-place
mutations. -/
def insert_one (c : Collection) (data : Doc) : Collection × Value × Doc :=
  insertDoc c (setVal data "is_deleted" (Value.vBool false))

/-- `MongoDBClient.insert_many` (lines 146-154): the loop sets
`is_deleted = False` on every caller document, then the driver inserts
them; returns `result.inserted_ids` in input order, and the caller
documents after their in-place mutations. -/
def insert_many (c : Collection) (dataList : List Doc) : Collection × List Value × List Doc :=
  insertManyDocs c (dataList.map (fun d => setVal d "is_deleted" (Value.vBool false)))

/-- `MongoDBClient.find_one` (lines 95-103): unless `include_deleted`,
performs `query["is_deleted"] = False` (an in-place mutation of the
caller mapping), then runs the driver find on that very mapping.  The
second component is that mapping: both the query actually executed and
the caller-visible state of the query object after the call. -/
def find_one (c : Collection) (query : Doc) (include_deleted : Bool) : Option Doc × Doc :=
  let query := if include_deleted then query else setVal query "is_deleted" (Value.vBool false)
  ((c.docs.filter (fun d => matchesQuery d query)).head?, query)

/-- `MongoDBClient.find_many` (lines 126-144): same injection as
`find_one`, then `find`, then `sort` if a sort is given, then `skip` if
`skip > 0`, then `limit` if `limit > 0`; the realized cursor list is
returned together with the executed (caller-visible) query mapping. -/
def find_many (c : Collection) (query : Doc) (include_deleted : Bool)
    (sort : Option (List (String × Int))) (limit : Nat) (skip : Nat) :
    List Doc × Doc :=
  let query := if include_deleted then query else setVal query "is_deleted" (Value.vBool false)
  let cursor := c.docs.filter (fun d => matchesQuery d query)
  let cursor :=
    match sort with
    | some sp => insertionSort (docLe sp) cursor
    | none => cursor
  let cursor := if skip > 0 then cursor.drop skip else cursor
  let cursor := if limit > 0 then cursor.take limit else cursor
  (cursor, query)

/-- `MongoDBClient.update_one` (lines 105-111): no soft-delete
injection; runs the driver update with `set` semantics on the query
exactly as supplied and returns the `UpdateResult` object. -/
def update_one (c : Collection) (query update_data : Doc) : Collection × OpReturn :=
  let r := updateFirstDoc query update_data c.docs
  ({ c with docs := r.1 }, OpReturn.updateRes r.2.1 r.2.2)

/-- `MongoDBClient.delete_one` (lines 113-124): soft mode updates the
first matching document with `set is_deleted = True` and returns the
`UpdateResult`; hard mode removes it and returns the `DeleteResult`. -/
def delete_one (c : Collection) (query : Doc) (soft_delete : Bool) : Collection × OpReturn :=
  if soft_delete then
    let r := updateFirstDoc query [("is_deleted", Value.vBool true)] c.docs
    ({ c with docs := r.1 }, OpReturn.updateRes r.2.1 r.2.2)
  else
    let r := deleteFirstDoc query c.docs
    ({ c with docs := r.1 }, OpReturn.deleteRes r.2)

/-- `MongoDBClient.delete_many` (lines 156-167): soft mode updates all
matching documents with `set is_deleted = True` (the `UpdateResult`
counts matched and actually-changed documents); hard mode removes all
matching documents and returns the `DeleteResult`. -/
def delete_many (c : Collection) (query : Doc) (soft_delete : Bool) : Collection × OpReturn :=
  if soft_delete then
    let matched := (c.docs.filter (fun d => matchesQuery d query)).length
    let modified := (c.docs.filter
      (fun d => matchesQuery d query
        && decide (applySet d [("is_deleted", Value.vBool true)] ≠ d))).length
    ({ c with docs := updateAllDocs query [("is_deleted", Value.vBool true)] c.docs },
     OpReturn.updateRes matched modified)
  else
    let matched := (c.docs.filter (fun d => matchesQuery d query)).length
    ({ c with docs := c.docs.filter (fun d => !(matchesQuery d query)) },
     OpReturn.deleteRes matched)

/-- `MongoDBClient.aggregate` (lines 169-174): the pipeline is handed
to the driver exactly as supplied, with no injected stage. -/
def aggregate (c : Collection) (pipeline : List Stage) : List Doc :=
  runPipeline pipeline c.docs

/-- `MongoDBClient.count_documents` (lines 176-182): counts matches of
the query exactly as supplied, with no soft-delete injection. -/
def count_documents (c : Collection) (query : Doc) : Nat :=
  (c.docs.filter (fun d => matchesQuery d query)).length

/-- Connection-relevant fields of a `MongoDBClient` instance: the
`self.client` handle (opaque) and the `self.db` database reference. -/
structure ClientState where
  client : Option Unit
  db : Option String
deriving DecidableEq

/-- The connection error raised by `_connect` (pymongo
`ConnectionFailure`, named `ConnectionError` in the design spec). -/
inductive ConnError where
  | connectionFailure
deriving DecidableEq

/-- `MongoDBClient._connect` (lines 26-37): a no-op when `self.client`
is already set; otherwise it assigns `self.client` and `self.db` and
only then pings.  The probe outcome is the parameter `pingOk`: on
failure the error is logged and re-raised (no retry), with the freshly
assigned handle left in place, exactly as in the Python method where
the assignments precede the ping.  The result pairs the state after
the call with the raised error, if any. -/
def connect (pingOk : Bool) (dbName : String) (s : ClientState) : ClientState × Option ConnError :=
  if s.client.isSome then (s, none)
  else
    let s2 : ClientState := { client := some (), db := some dbName }
    if pingOk then (s2, none) else (s2, some ConnError.connectionFailure)

/-- `MongoDBClient.__init__` (lines 14-24): fields start as `None`,
then `_connect` runs; when it raises, construction fails and no
instance is produced, which `Except.error` models. -/
def initClient (pingOk : Bool) (dbName : String) : Except ConnError ClientState :=
  match connect pingOk dbName { client := none, db := none } with
  | (s, none) => Except.ok s
  | (_, some e) => Except.error e

/-- `MongoDBClient.close` (lines 47-53): when a handle exists, release
it and null both `self.client` and `self.db`; otherwise do nothing. -/
def close (s : ClientState) : ClientState :=
  if s.client.isSome then { client := none, db := none } else s

/-- `MongoDBClient.__exit__` (lines 44-45): unconditionally calls
`close`, whatever exception information (if any) accompanies the scope
exit. -/
def exitScope (s : ClientState) (_excInfo : Option String) : ClientState :=
  close s

/-- A file under the schema root directory, as seen by the recursive
glob: its filename and its parsed JSON content (`none` models a file
whose content is not valid JSON, where `json.load` raises a decode
error rather than a not-found error). -/
structure SchemaFile where
  name : String
  content : Option Doc
deriving DecidableEq

/-- Errors of the schema-loading path: the spec taxonomy names the
missing-schema failure `SchemaNotFoundError` (the Python code raises
`FileNotFoundError` there); a malformed file fails with a JSON decode
error instead. -/
inductive LoadError where
  | schemaNotFound
  | jsonDecode
deriving DecidableEq

/-- `MongoDBClient._load_validation_schema` (lines 55-64):
`next(base_path.glob(..), None)` takes the first file under the schema
root whose filename matches; when there is none the not-found error is
raised, otherwise the file content is parsed. -/
def load_validation_schema (fs : List SchemaFile) (schema_filename : String) :
    Except LoadError Doc :=
  match fs.find? (fun f => f.name = schema_filename) with
  | none => Except.error LoadError.schemaNotFound
  | some f =>
    match f.content with
    | none => Except.error LoadError.jsonDecode
    | some schema => Except.ok schema

/-- The database as seen by `_ensure_validation`: named collections,
each with an optional (validator schema, validation level) pair. -/
structure DBV where
  collections : List (String × Option (Doc × String))
deriving DecidableEq

/-- Driver-level `db.create_collection(name)`: raises
`CollectionInvalid` (the boolean component) when the collection already
exists, otherwise appends it with no validator. -/
def createCollection (db : DBV) (name : String) : DBV × Bool :=
  if (db.collections.find? (fun p => p.1 = name)).isSome then (db, true)
  else ({ collections := db.collections ++ [(name, none)] }, false)

/-- Driver-level `collMod` command: set the validator and validation
level of the named collection. -/
def collMod (db : DBV) (name : String) (validator : Doc) (level : String) : DBV :=
  { collections := db.collections.map
      (fun p => if p.1 = name then (p.1, some (validator, level)) else p) }

/-- Whether the named collection exists. -/
def collectionExists (db : DBV) (name : String) : Bool :=
  (db.collections.find? (fun p => p.1 = name)).isSome

/-- The validator currently in effect on the named collection. -/
def validatorOf (db : DBV) (name : String) : Option (Doc × String) :=
  match db.collections.find? (fun p => p.1 = name) with
  | some p => p.2
  | none => none

/-- `MongoDBClient._ensure_validation` (lines 66-83): load the schema
(propagating its errors), create the collection while swallowing
`CollectionInvalid`, then apply the schema as the validator with
validation level strict. -/
def ensure_validation (fs : List SchemaFile) (db : DBV)
    (collection_name schema_filename : String) : Except LoadError DBV :=
  match load_validation_schema fs schema_filename with
  | Except.error e => Except.error e
  | Except.ok schema =>
    let r := createCollection db collection_name
    Except.ok (collMod r.1 collection_name schema "strict")

/-! ### Helper lemmas about dictionaries and queries -/

theorem getVal_setVal_self (d : Doc) (k : String) (v : Value) :
    getVal (setVal d k v) k = some v := by
  induction d with
  | nil => simp [setVal, getVal]
  | cons p rest ih =>
    by_cases h : p.1 = k <;> simp [setVal, getVal, h, ih]

theorem getVal_setVal_ne (d : Doc) (k k2 : String) (v : Value) (h : k2 ≠ k) :
    getVal (setVal d k v) k2 = getVal d k2 := by
  have hk : ¬k = k2 := Ne.symm h
  induction d with
  | nil => simp [setVal, getVal, hk]
  | cons p rest ih =>
    by_cases hp : p.1 = k
    · subst hp
      simp [setVal, getVal, hk]
    · by_cases hp2 : p.1 = k2 <;> simp [setVal, getVal, hp, hp2, hk, h, ih]

theorem setVal_of_absent (d : Doc) (k : String) (v : Value)
    (h : ∀ p ∈ d, p.1 ≠ k) :
    setVal d k v = d ++ [(k, v)] := by
  induction d with
  | nil => simp [setVal]
  | cons p rest ih =>
    have hp : p.1 ≠ k := h p (List.mem_cons_self p rest)
    simp [setVal, hp]
    exact ih (fun p2 hp2 => h p2 (List.mem_cons_of_mem p hp2))

theorem matchesQuery_append (d q1 q2 : Doc) :
    matchesQuery d (q1 ++ q2) = (matchesQuery d q1 && matchesQuery d q2) := by
  induction q1 with
  | nil => simp [matchesQuery]
  | cons p rest ih => simp [matchesQuery, ih, Bool.and_assoc]

theorem matchesQuery_setVal (d q : Doc) (k : String) (v : Value)
    (h : ∀ p ∈ q, p.1 ≠ k) :
    matchesQuery (setVal d k v) q = matchesQuery d q := by
  induction q with
  | nil => rfl
  | cons p rest ih =>
    have hp : p.1 ≠ k := h p (List.mem_cons_self p rest)
    have hrest : ∀ p2 ∈ rest, p2.1 ≠ k :=
      fun p2 hp2 => h p2 (List.mem_cons_of_mem p hp2)
    simp [matchesQuery, getVal_setVal_ne d k p.1 v hp, ih hrest]

theorem applySet_single (d : Doc) (k : String) (v : Value) :
    applySet d [(k, v)] = setVal d k v := rfl

theorem filter_and {α : Type} (f g : α → Bool) (l : List α) :
    l.filter (fun a => f a && g a) = (l.filter f).filter g := by
  induction l with
  | nil => rfl
  | cons a rest ih =>
    by_cases hf : f a <;> by_cases hg : g a <;>
      simp [List.filter_cons, hf, hg, ih]

theorem filter_neg_of_filter_nil {α : Type} (f : α → Bool) (l : List α)
    (h : l.filter f = []) : l.filter (fun a => !f a) = l := by
  simp only [List.filter_eq_nil_iff] at h
  simp only [List.filter_eq_self, Bool.not_eq_true']
  intro a ha
  exact Bool.eq_false_iff.mpr (h a ha)

theorem filter_of_filter_neg {α : Type} (f : α → Bool) (l : List α) :
    (l.filter (fun a => !f a)).filter f = [] := by
  induction l with
  | nil => rfl
  | cons a rest ih =>
    by_cases hf : f a <;> simp [List.filter_cons, hf, ih]

/-! ### Lemmas about the update and delete primitives -/

theorem updateFirstDoc_length (q u : Doc) (docs : List Doc) :
    (updateFirstDoc q u docs).1.length = docs.length := by
  induction docs with
  | nil => rfl
  | cons d rest ih =>
    by_cases hm : matchesQuery d q <;> simp [updateFirstDoc, hm, ih]

theorem updateFirstDoc_counts (q u : Doc) (docs : List Doc) :
    (updateFirstDoc q u docs).2.1 ≤ 1
    ∧ (updateFirstDoc q u docs).2.2 ≤ (updateFirstDoc q u docs).2.1 := by
  induction docs with
  | nil => exact ⟨Nat.zero_le 1, Nat.le_refl 0⟩
  | cons d rest ih =>
    by_cases hm : matchesQuery d q
    · by_cases he : applySet d u = d <;> simp [updateFirstDoc, hm, he]
    · simpa [updateFirstDoc, hm] using ih

theorem deleteFirstDoc_count (q : Doc) (docs : List Doc) :
    (deleteFirstDoc q docs).2 ≤ 1 := by
  induction docs with
  | nil => exact Nat.zero_le 1
  | cons d rest ih =>
    by_cases hm : matchesQuery d q <;> simp [deleteFirstDoc, hm, ih]

theorem matchesQuery_applySet (q : Doc) : ∀ (u d : Doc),
    (∀ p ∈ q, ∀ p2 ∈ u, p.1 ≠ p2.1) →
    matchesQuery (applySet d u) q = matchesQuery d q := by
  intro u
  induction u with
  | nil => intro d _; rfl
  | cons p2 us ihu =>
    intro d hq
    have h1 : matchesQuery (setVal d p2.1 p2.2) q = matchesQuery d q :=
      matchesQuery_setVal d q p2.1 p2.2
        (fun p hp => hq p hp p2 (List.mem_cons_self p2 us))
    have h2 : ∀ p ∈ q, ∀ p3 ∈ us, p.1 ≠ p3.1 :=
      fun p hp p3 hp3 => hq p hp p3 (List.mem_cons_of_mem p2 hp3)
    calc matchesQuery (applySet d (p2 :: us)) q
        = matchesQuery (applySet (setVal d p2.1 p2.2) us) q := rfl
      _ = matchesQuery (setVal d p2.1 p2.2) q := ihu (setVal d p2.1 p2.2) h2
      _ = matchesQuery d q := h1

theorem updateFirstDoc_filter_unique (q u D : Doc) (docs : List Doc)
    (hq : ∀ p ∈ q, ∀ p2 ∈ u, p.1 ≠ p2.1)
    (hD : docs.filter (fun d => matchesQuery d q) = [D]) :
    ((updateFirstDoc q u docs).1).filter (fun d => matchesQuery d q) = [applySet D u] := by
  induction docs with
  | nil => exact absurd hD (by simp)
  | cons d rest ih =>
    by_cases hm : matchesQuery d q
    · rw [List.filter_cons, if_pos hm] at hD
      obtain ⟨hd, hrest⟩ := List.cons_eq_cons.mp hD
      subst hd
      have hmm : matchesQuery (applySet d u) q = matchesQuery d q :=
        matchesQuery_applySet q u d hq
      simp [updateFirstDoc, hm, List.filter_cons, hmm, hrest]
    · rw [List.filter_cons, if_neg (by simp [hm])] at hD
      simp [updateFirstDoc, hm, List.filter_cons, ih hD]

theorem updateAllDocs_filter_nil (q u : Doc) (docs : List Doc)
    (h : docs.filter (fun d => matchesQuery d q) = []) :
    (updateAllDocs q u docs).filter (fun d => matchesQuery d q) = [] := by
  rw [List.filter_eq_nil_iff] at h ⊢
  intro a ha
  simp only [updateAllDocs] at ha
  rcases List.mem_map.mp ha with ⟨d, hd, rfl⟩
  have hm := h d hd
  simp [hm]

theorem updateAllDocs_filter_unique (q u D : Doc) (docs : List Doc)
    (hq : ∀ p ∈ q, ∀ p2 ∈ u, p.1 ≠ p2.1)
    (hD : docs.filter (fun d => matchesQuery d q) = [D]) :
    (updateAllDocs q u docs).filter (fun d => matchesQuery d q) = [applySet D u] := by
  induction docs with
  | nil => exact absurd hD (by simp)
  | cons d rest ih =>
    by_cases hm : matchesQuery d q
    · rw [List.filter_cons, if_pos hm] at hD
      obtain ⟨hd, hrest⟩ := List.cons_eq_cons.mp hD
      subst hd
      have hmm : matchesQuery (applySet d u) q = matchesQuery d q :=
        matchesQuery_applySet q u d hq
      have step : updateAllDocs q u (d :: rest) = applySet d u :: updateAllDocs q u rest := by
        simp [updateAllDocs, hm]
      rw [step, List.filter_cons, if_pos (by rw [hmm]; exact hm)]
      rw [updateAllDocs_filter_nil q u rest hrest]
    · rw [List.filter_cons, if_neg (by simp [hm])] at hD
      have step : updateAllDocs q u (d :: rest) = d :: updateAllDocs q u rest := by
        simp [updateAllDocs, hm]
      rw [step, List.filter_cons, if_neg (by simp [hm])]
      exact ih hD

theorem updateAllDocs_length (q u : Doc) (docs : List Doc) :
    (updateAllDocs q u docs).length = docs.length :=
  List.length_map docs _

theorem deleteFirstDoc_filter_unique (q D : Doc) (docs : List Doc)
    (hD : docs.filter (fun d => matchesQuery d q) = [D]) :
    ((deleteFirstDoc q docs).1).filter (fun d => matchesQuery d q) = [] := by
  induction docs with
  | nil => exact absurd hD (by simp)
  | cons d rest ih =>
    by_cases hm : matchesQuery d q
    · rw [List.filter_cons, if_pos hm] at hD
      have hrest : rest.filter (fun d => matchesQuery d q) = [] :=
        (List.cons_eq_cons.mp hD).2
      simp [deleteFirstDoc, hm, hrest]
    · rw [List.filter_cons, if_neg (by simp [hm])] at hD
      simp [deleteFirstDoc, hm, List.filter_cons, ih hD]

theorem deleteFirstDoc_length_unique (q D : Doc) (docs : List Doc)
    (hD : docs.filter (fun d => matchesQuery d q) = [D]) :
    ((deleteFirstDoc q docs).1).length + 1 = docs.length := by
  induction docs with
  | nil => exact absurd hD (by simp)
  | cons d rest ih =>
    by_cases hm : matchesQuery d q
    · simp [deleteFirstDoc, hm]
    · rw [List.filter_cons, if_neg (by simp [hm])] at hD
      have hrec := ih hD
      have step : deleteFirstDoc q (d :: rest)
          = (d :: (deleteFirstDoc q rest).1, (deleteFirstDoc q rest).2) := by
        simp [deleteFirstDoc, hm]
      rw [step]
      simp only [List.length_cons]
      omega

/-! ### Lemmas about the insert primitives -/

/-- Expected identifiers generated for a run of inserts starting at
counter `n`: one fresh integer per input document, in input order. -/
def expectedIds : Nat → List Doc → List Value
  | _, [] => []
  | n, _ :: ds => Value.vInt n :: expectedIds (n + 1) ds

/-- Expected stored documents for a run of inserts starting at counter
`n`: each input document in input order, with its generated `_id`. -/
def storedWithIds : Nat → List Doc → List Doc
  | _, [] => []
  | n, d :: ds => setVal d "_id" (Value.vInt n) :: storedWithIds (n + 1) ds

theorem insertManyDocs_noIds : ∀ (l : List Doc) (c : Collection),
    (∀ d ∈ l, getVal d "_id" = none) →
    insertManyDocs c l
      = ({ docs := c.docs ++ storedWithIds c.nextId l, nextId := c.nextId + l.length },
         expectedIds c.nextId l, storedWithIds c.nextId l) := by
  intro l
  induction l with
  | nil => intro c _; simp [insertManyDocs, storedWithIds, expectedIds]
  | cons d ds ih =>
    intro c h
    have hd : getVal d "_id" = none := h d (List.mem_cons_self d ds)
    have hds : ∀ d2 ∈ ds, getVal d2 "_id" = none :=
      fun d2 h2 => h d2 (List.mem_cons_of_mem d h2)
    have hins : insertDoc c d
        = ({ docs := c.docs ++ [setVal d "_id" (Value.vInt c.nextId)], nextId := c.nextId + 1 },
           Value.vInt c.nextId, setVal d "_id" (Value.vInt c.nextId)) := by
      simp [insertDoc, hd]
    have hrec := ih ⟨c.docs ++ [setVal d "_id" (Value.vInt c.nextId)], c.nextId + 1⟩ hds
    simp only [insertManyDocs, hins, hrec, storedWithIds, expectedIds,
      Prod.mk.injEq, Collection.mk.injEq, List.length_cons, List.append_assoc,
      List.singleton_append, List.cons_append, List.nil_append,
      true_and, and_true]
    omega

theorem insertDoc_docs (c : Collection) (d : Doc) :
    (insertDoc c d).1.docs = c.docs ++ [(insertDoc c d).2.2] := by
  cases hid : getVal d "_id" <;> simp [insertDoc, hid]

theorem insertDoc_flag (c : Collection) (d : Doc)
    (hd : getVal d "is_deleted" = some (Value.vBool false)) :
    getVal (insertDoc c d).2.2 "is_deleted" = some (Value.vBool false) := by
  cases hid : getVal d "_id" with
  | some v => simp [insertDoc, hid, hd]
  | none =>
    simp [insertDoc, hid, getVal_setVal_ne d "_id" "is_deleted" _ (by decide), hd]

theorem insertManyDocs_mem : ∀ (l : List Doc) (c : Collection),
    (∀ d ∈ l, getVal d "is_deleted" = some (Value.vBool false)) →
    ∀ d2 ∈ (insertManyDocs c l).1.docs,
      d2 ∈ c.docs ∨ getVal d2 "is_deleted" = some (Value.vBool false) := by
  intro l
  induction l with
  | nil =>
    intro c _ d2 h2
    exact Or.inl h2
  | cons d ds ih =>
    intro c h d2 h2
    have hd : getVal d "is_deleted" = some (Value.vBool false) := h d (List.mem_cons_self d ds)
    have hds : ∀ d3 ∈ ds, getVal d3 "is_deleted" = some (Value.vBool false) :=
      fun d3 h3 => h d3 (List.mem_cons_of_mem d h3)
    have h2m : d2 ∈ (insertManyDocs (insertDoc c d).1 ds).1.docs := h2
    rcases ih (insertDoc c d).1 hds d2 h2m with hmem | hflag
    · rw [insertDoc_docs c d] at hmem
      rcases List.mem_append.mp hmem with hc | hs
      · exact Or.inl hc
      · exact Or.inr (List.mem_singleton.mp hs ▸ insertDoc_flag c d hd)
    · exact Or.inr hflag

theorem insertDoc_id (c : Collection) (d : Doc) :
    getVal (insertDoc c d).2.2 "_id" = some (insertDoc c d).2.1 := by
  cases hid : getVal d "_id" with
  | some v => simp [insertDoc, hid]
  | none => simp [insertDoc, hid, getVal_setVal_self]

theorem insertManyDocs_out_mem : ∀ (l : List Doc) (c : Collection),
    (∀ d ∈ l, getVal d "is_deleted" = some (Value.vBool false)) →
    ∀ d2 ∈ (insertManyDocs c l).2.2, getVal d2 "is_deleted" = some (Value.vBool false) := by
  intro l
  induction l with
  | nil =>
    intro c _ d2 h2
    exact absurd h2 (by simp [insertManyDocs])
  | cons d ds ih =>
    intro c h d2 h2
    have hd : getVal d "is_deleted" = some (Value.vBool false) := h d (List.mem_cons_self d ds)
    have hds : ∀ d3 ∈ ds, getVal d3 "is_deleted" = some (Value.vBool false) :=
      fun d3 h3 => h d3 (List.mem_cons_of_mem d h3)
    have h2m : d2 ∈ (insertDoc c d).2.2 :: (insertManyDocs (insertDoc c d).1 ds).2.2 := h2
    rcases List.mem_cons.mp h2m with hh | ht
    · rw [hh]
      exact insertDoc_flag c d hd
    · exact ih (insertDoc c d).1 hds d2 ht

theorem expectedIds_map (f : Doc → Doc) : ∀ (n : Nat) (l : List Doc),
    expectedIds n (l.map f) = expectedIds n l := by
  intro n l
  induction l generalizing n with
  | nil => rfl
  | cons d ds ih => simp [expectedIds, ih]

theorem length_filter_split {α : Type} (f : α → Bool) (l : List α) :
    (l.filter f).length + (l.filter (fun a => !f a)).length = l.length := by
  induction l with
  | nil => rfl
  | cons a rest ih =>
    by_cases hf : f a <;> simp [List.filter_cons, hf, ← ih] <;> omega

/-! ### Lemmas about the validation model -/

theorem find_append_of_none {α : Type} (p : α → Bool) (l1 l2 : List α)
    (h : l1.find? p = none) : (l1 ++ l2).find? p = l2.find? p := by
  induction l1 with
  | nil => rfl
  | cons a rest ih =>
    cases hpa : p a with
    | true =>
      rw [List.find?_cons_of_pos _ hpa] at h
      exact absurd h (by simp)
    | false =>
      rw [List.find?_cons_of_neg _ (by simp [hpa])] at h
      rw [List.cons_append, List.find?_cons_of_neg _ (by simp [hpa])]
      exact ih h

theorem createCollection_exists (db : DBV) (n : String) :
    collectionExists (createCollection db n).1 n = true := by
  by_cases h : (db.collections.find? (fun p => p.1 = n)).isSome
  · simp [createCollection, collectionExists, h]
  · have hnone : db.collections.find? (fun p => decide (p.1 = n)) = none := by
      cases hf : db.collections.find? (fun p => decide (p.1 = n))
      · rfl
      · rw [hf] at h; simp at h
    simp only [createCollection, collectionExists, h, if_false, Bool.false_eq_true]
    rw [find_append_of_none _ _ _ hnone]
    simp

theorem find_map_upd (l : List (String × Option (Doc × String))) (n : String)
    (schema : Doc) (lvl : String)
    (h : (l.find? (fun p => p.1 = n)).isSome = true) :
    (l.map (fun p => if p.1 = n then (p.1, some (schema, lvl)) else p)).find?
        (fun p => p.1 = n)
      = some (n, some (schema, lvl)) := by
  induction l with
  | nil => simp at h
  | cons a rest ih =>
    by_cases ha : a.1 = n
    · subst ha
      simp [List.find?_cons_of_pos]
    · rw [List.find?_cons_of_neg _ (by simp [ha])] at h
      simp only [List.map_cons, if_neg ha]
      rw [List.find?_cons_of_neg _ (by simp [ha])]
      exact ih h

theorem collMod_validator (db : DBV) (n : String) (schema : Doc) (lvl : String)
    (h : collectionExists db n = true) :
    validatorOf (collMod db n schema lvl) n = some (schema, lvl) := by
  unfold collectionExists at h
  unfold validatorOf collMod
  rw [find_map_upd db.collections n schema lvl h]

theorem collMod_exists (db : DBV) (n : String) (schema : Doc) (lvl : String)
    (h : collectionExists db n = true) :
    collectionExists (collMod db n schema lvl) n = true := by
  unfold collectionExists at h ⊢
  unfold collMod
  rw [find_map_upd db.collections n schema lvl h]
  rfl

/-! ### The claims -/

/-- C1: with `include_deleted = false` (the default) the query executed
by `find_one` and `find_many` is the caller query with the entry
`is_deleted: false` added (all other caller criteria preserved); with
`include_deleted = true` the query is executed exactly as supplied. -/
theorem claim_C1 (c : Collection) (q : Doc)
    (sort : Option (List (String × Int))) (lim sk : Nat) :
    ((find_one c q false).2 = setVal q "is_deleted" (Value.vBool false)
      ∧ getVal (find_one c q false).2 "is_deleted" = some (Value.vBool false)
      ∧ (∀ k, k ≠ "is_deleted" → getVal (find_one c q false).2 k = getVal q k)
      ∧ (find_one c q false).1
          = (c.docs.filter
              (fun d => matchesQuery d (setVal q "is_deleted" (Value.vBool false)))).head?
      ∧ find_one c q true = ((c.docs.filter (fun d => matchesQuery d q)).head?, q))
    ∧ ((find_many c q false sort lim sk).2 = setVal q "is_deleted" (Value.vBool false)
      ∧ (find_many c q true sort lim sk).2 = q) := by
  refine ⟨⟨rfl, getVal_setVal_self q _ _, ?_, rfl, rfl⟩, rfl, rfl⟩
  intro k hk
  exact getVal_setVal_ne q "is_deleted" k (Value.vBool false) hk

/-- Witness for C1 at a concrete query and key. -/
theorem claim_C1_witness :
    getVal (find_one ⟨[], 0⟩ [("name", Value.vStr "Ann")] false).2 "name"
      = getVal [("name", Value.vStr "Ann")] "name" :=
  (claim_C1 ⟨[], 0⟩ [("name", Value.vStr "Ann")] none 0 0).1.2.2.1 "name" (by decide)

/-- What C2 asserts of `insert_one`: the stored document carries
`is_deleted = false` (whatever the caller supplied for that field) and
its `_id` is the returned identifier. -/
def insertOneSpec (c : Collection) (data : Doc) : Prop :=
  (insert_one c data).1.docs = c.docs ++ [(insert_one c data).2.2]
  ∧ getVal (insert_one c data).2.2 "is_deleted" = some (Value.vBool false)
  ∧ getVal (insert_one c data).2.2 "_id" = some (insert_one c data).2.1

/-- What C2 asserts of `insert_many`: every newly stored document
carries `is_deleted = false`, and (for inputs without caller-chosen
identifiers) the returned identifiers are the generated ones, in input
order, matching the order in which the documents are stored. -/
def insertManySpec (c : Collection) (dataList : List Doc) : Prop :=
  (∀ d2 ∈ (insert_many c dataList).1.docs,
      d2 ∈ c.docs ∨ getVal d2 "is_deleted" = some (Value.vBool false))
  ∧ ((∀ d ∈ dataList, getVal d "_id" = none) →
      (insert_many c dataList).2.1 = expectedIds c.nextId dataList
      ∧ (insert_many c dataList).1.docs
          = c.docs ++ storedWithIds c.nextId
              (dataList.map (fun d => setVal d "is_deleted" (Value.vBool false))))

/-- C2: every document written by `insert_one` and `insert_many` is
stored with `is_deleted = false` even when the caller supplied a value
for it; `insert_one` returns the identifier under which the document
was stored, and `insert_many` returns the generated identifiers in
input order. -/
theorem claim_C2 (c : Collection) (data : Doc) (dataList : List Doc) :
    insertOneSpec c data ∧ insertManySpec c dataList := by
  constructor
  · exact ⟨insertDoc_docs c _,
      insertDoc_flag c _ (getVal_setVal_self data "is_deleted" (Value.vBool false)),
      insertDoc_id c _⟩
  constructor
  · intro d2 h2
    refine insertManyDocs_mem _ c ?_ d2 h2
    intro d hd
    rcases List.mem_map.mp hd with ⟨d0, _, rfl⟩
    exact getVal_setVal_self d0 "is_deleted" (Value.vBool false)
  · intro hids
    have hids2 : ∀ d ∈ dataList.map (fun d => setVal d "is_deleted" (Value.vBool false)),
        getVal d "_id" = none := by
      intro d hd
      rcases List.mem_map.mp hd with ⟨d0, hd0, rfl⟩
      rw [getVal_setVal_ne d0 "is_deleted" "_id" _ (by decide)]
      exact hids d0 hd0
    have heq := insertManyDocs_noIds
      (dataList.map (fun d => setVal d "is_deleted" (Value.vBool false))) c hids2
    constructor
    · show (insertManyDocs c _).2.1 = _
      rw [heq]
      exact expectedIds_map _ c.nextId dataList
    · show (insertManyDocs c _).1.docs = _
      rw [heq]

/-- Witness for C2: a document that arrives with `is_deleted = true` is
stored with `is_deleted = false`, and identifiers come back in input
order. -/
theorem claim_C2_witness :
    insertOneSpec ⟨[], 0⟩ [("name", Value.vStr "Ann"), ("is_deleted", Value.vBool true)]
    ∧ (insert_many ⟨[], 0⟩ [[("a", Value.vInt 1)]]).2.1
        = expectedIds 0 [[("a", Value.vInt 1)]] :=
  ⟨(claim_C2 ⟨[], 0⟩ [("name", Value.vStr "Ann"), ("is_deleted", Value.vBool true)] []).1,
   ((claim_C2 ⟨[], 0⟩ [] [[("a", Value.vInt 1)]]).2.2 (by decide)).1⟩

/-- A collection holding one live and one soft-deleted document, both
matching the criteria on field team. -/
def mixedPair : Collection :=
  ⟨[[("team", Value.vStr "x"), ("is_deleted", Value.vBool false)],
    [("team", Value.vStr "x"), ("is_deleted", Value.vBool true)]], 2⟩

/-- C4: `update_one`, `aggregate` and `count_documents` run on the
query or pipeline exactly as supplied, with no `is_deleted` filter
injected; on a collection with one live and one soft-deleted matching
document, `count_documents` counts both, `aggregate` returns both, and
`update_one` can modify the soft-deleted one. -/
theorem claim_C4 (c : Collection) (q u : Doc) (p : List Stage) :
    ((update_one c q u).1.docs = (updateFirstDoc q u c.docs).1
      ∧ (update_one c q u).2
          = OpReturn.updateRes (updateFirstDoc q u c.docs).2.1 (updateFirstDoc q u c.docs).2.2)
    ∧ aggregate c p = runPipeline p c.docs
    ∧ count_documents c q = (c.docs.filter (fun d => matchesQuery d q)).length
    ∧ count_documents mixedPair [("team", Value.vStr "x")] = 2
    ∧ aggregate mixedPair [Stage.matchStage [("team", Value.vStr "x")]] = mixedPair.docs
    ∧ (update_one mixedPair
        [("team", Value.vStr "x"), ("is_deleted", Value.vBool true)]
        [("note", Value.vStr "y")]).2 = OpReturn.updateRes 1 1 := by
  exact ⟨⟨rfl, rfl⟩, rfl, rfl, by decide, by decide, by decide⟩

/-- C5 (amended): `update_one` returns the driver result object whose
modified count is at most its matched count, itself at most 1;
`delete_one` and `delete_many` return the result object carrying the
modified count (soft) or deleted count (hard), not a bare integer. -/
theorem claim_C5 (c : Collection) (q u : Doc) :
    (∃ m k, (update_one c q u).2 = OpReturn.updateRes m k ∧ m ≤ 1 ∧ k ≤ m)
    ∧ (∃ m k, (delete_one c q true).2 = OpReturn.updateRes m k ∧ m ≤ 1 ∧ k ≤ m)
    ∧ (∃ n, (delete_one c q false).2 = OpReturn.deleteRes n ∧ n ≤ 1)
    ∧ (∃ m k, (delete_many c q true).2 = OpReturn.updateRes m k ∧ k ≤ m)
    ∧ (∃ n, (delete_many c q false).2 = OpReturn.deleteRes n) := by
  refine ⟨⟨_, _, rfl, (updateFirstDoc_counts q u c.docs).1, (updateFirstDoc_counts q u c.docs).2⟩,
    ⟨_, _, rfl, (updateFirstDoc_counts q _ c.docs).1, (updateFirstDoc_counts q _ c.docs).2⟩,
    ⟨_, rfl, deleteFirstDoc_count q c.docs⟩,
    ⟨_, _, rfl, ?_⟩,
    ⟨_, rfl⟩⟩
  rw [filter_and]
  exact List.length_filter_le _ _

/-- Concrete store used to refute C5 as stated. -/
def cExC5 : Collection :=
  ⟨[[("a", Value.vInt 1), ("is_deleted", Value.vBool false)]], 1⟩

/-- Counterexample to C5 as stated: at a concrete matching input, the
value returned by `update_one`, `delete_one` and `delete_many` is a
pymongo result object, not the bare count the claim says is returned. -/
theorem claim_C5_counterexample :
    isIntReturn (update_one cExC5 [("a", Value.vInt 1)] [("b", Value.vInt 2)]).2 = false
    ∧ isIntReturn (delete_one cExC5 [("a", Value.vInt 1)] true).2 = false
    ∧ isIntReturn (delete_one cExC5 [("a", Value.vInt 1)] false).2 = false
    ∧ isIntReturn (delete_many cExC5 [("a", Value.vInt 1)] true).2 = false
    ∧ isIntReturn (delete_many cExC5 [("a", Value.vInt 1)] false).2 = false := by
  exact ⟨rfl, rfl, rfl, rfl, rfl⟩

/-- The soft-deleted form of a document: only its `is_deleted` field is
rewritten to true. -/
def softDeleted (D : Doc) : Doc := setVal D "is_deleted" (Value.vBool true)

/-- What C3 asserts about deleting the unique document `D` matching
`q`: soft deletion (via `delete_one` or `delete_many`) keeps the
collection size, hides the document from `find_one` with the default
flag, still surfaces it (with `is_deleted = true`, all other fields
unchanged) when deleted documents are included; hard deletion shrinks
the collection by one and removes the document even from searches
including deleted documents. -/
def deleteBehavior (c : Collection) (q D : Doc) : Prop :=
  (delete_one c q true).1.docs.length = c.docs.length
  ∧ (find_one (delete_one c q true).1 q false).1 = none
  ∧ (find_one (delete_one c q true).1 q true).1 = some (softDeleted D)
  ∧ (∀ k, k ≠ "is_deleted" → getVal (softDeleted D) k = getVal D k)
  ∧ (delete_many c q true).1.docs.length = c.docs.length
  ∧ (find_one (delete_many c q true).1 q false).1 = none
  ∧ (find_one (delete_many c q true).1 q true).1 = some (softDeleted D)
  ∧ (delete_one c q false).1.docs.length + 1 = c.docs.length
  ∧ (find_one (delete_one c q false).1 q true).1 = none
  ∧ (delete_many c q false).1.docs.length + 1 = c.docs.length
  ∧ (find_one (delete_many c q false).1 q true).1 = none

/-- C3: for a query (on fields other than the deletion flag) matching
exactly one document, soft delete marks instead of removing, hard
delete removes; see `deleteBehavior` for the full statement. -/
theorem claim_C3 (c : Collection) (q D : Doc)
    (hq : ∀ p ∈ q, p.1 ≠ "is_deleted")
    (hD : c.docs.filter (fun d => matchesQuery d q) = [D]) :
    deleteBehavior c q D := by
  have hqu : ∀ p ∈ q, ∀ p2 ∈ [("is_deleted", Value.vBool true)], p.1 ≠ p2.1 := by
    intro p hp p2 hp2
    have h2 : p2 = ("is_deleted", Value.vBool true) := List.mem_singleton.mp hp2
    rw [h2]
    exact hq p hp
  have hfu := updateFirstDoc_filter_unique q [("is_deleted", Value.vBool true)] D c.docs hqu hD
  have hfa := updateAllDocs_filter_unique q [("is_deleted", Value.vBool true)] D c.docs hqu hD
  rw [applySet_single] at hfu hfa
  have hqe : ∀ d2 : Doc, matchesQuery d2 (setVal q "is_deleted" (Value.vBool false))
      = (matchesQuery d2 q && decide (getVal d2 "is_deleted" = some (Value.vBool false))) := by
    intro d2
    rw [setVal_of_absent q _ _ hq, matchesQuery_append]
    simp [matchesQuery]
  have hfsplit : ∀ (l : List Doc),
      l.filter (fun d => matchesQuery d (setVal q "is_deleted" (Value.vBool false)))
        = (l.filter (fun d => matchesQuery d q)).filter
            (fun d => decide (getVal d "is_deleted" = some (Value.vBool false))) := by
    intro l
    simp only [hqe]
    exact filter_and _ _ l
  have hgone : decide (getVal (setVal D "is_deleted" (Value.vBool true)) "is_deleted"
      = some (Value.vBool false)) = false := by
    simp [getVal_setVal_self]
  refine ⟨?_, ?_, ?_, ?_, ?_, ?_, ?_, ?_, ?_, ?_, ?_⟩
  · exact updateFirstDoc_length q _ c.docs
  · show ((updateFirstDoc q [("is_deleted", Value.vBool true)] c.docs).1.filter
        (fun d => matchesQuery d (setVal q "is_deleted" (Value.vBool false)))).head? = none
    rw [hfsplit, hfu]
    simp [List.filter_cons, hgone]
  · show ((updateFirstDoc q [("is_deleted", Value.vBool true)] c.docs).1.filter
        (fun d => matchesQuery d q)).head? = some (softDeleted D)
    rw [hfu]
    rfl
  · intro k hk
    exact getVal_setVal_ne D "is_deleted" k (Value.vBool true) hk
  · exact updateAllDocs_length q _ c.docs
  · show ((updateAllDocs q [("is_deleted", Value.vBool true)] c.docs).filter
        (fun d => matchesQuery d (setVal q "is_deleted" (Value.vBool false)))).head? = none
    rw [hfsplit, hfa]
    simp [List.filter_cons, hgone]
  · show ((updateAllDocs q [("is_deleted", Value.vBool true)] c.docs).filter
        (fun d => matchesQuery d q)).head? = some (softDeleted D)
    rw [hfa]
    rfl
  · exact deleteFirstDoc_length_unique q D c.docs hD
  · show (((deleteFirstDoc q c.docs).1).filter (fun d => matchesQuery d q)).head? = none
    rw [deleteFirstDoc_filter_unique q D c.docs hD]
    rfl
  · have hsplit := length_filter_split (fun d => matchesQuery d q) c.docs
    rw [hD] at hsplit
    show (c.docs.filter (fun d => !matchesQuery d q)).length + 1 = c.docs.length
    calc (c.docs.filter (fun d => !matchesQuery d q)).length + 1
        = 1 + (c.docs.filter (fun d => !matchesQuery d q)).length := Nat.add_comm _ _
      _ = c.docs.length := hsplit
  · show (((c.docs.filter (fun d => !matchesQuery d q))).filter
        (fun d => matchesQuery d q)).head? = none
    rw [filter_of_filter_neg]
    rfl

/-- Concrete one-document store used to witness C3. -/
def cExC3 : Collection :=
  ⟨[[("name", Value.vStr "Ann"), ("is_deleted", Value.vBool false)]], 1⟩

/-- Witness for C3 on a concrete store and natural-key query. -/
theorem claim_C3_witness :
    deleteBehavior cExC3 [("name", Value.vStr "Ann")]
      [("name", Value.vStr "Ann"), ("is_deleted", Value.vBool false)] :=
  claim_C3 cExC3 [("name", Value.vStr "Ann")]
    [("name", Value.vStr "Ann"), ("is_deleted", Value.vBool false)]
    (by decide) (by decide)

theorem skip_limit_norm (L : List Doc) (lim sk : Nat) :
    (if lim > 0 then (if sk > 0 then L.drop sk else L).take lim
     else (if sk > 0 then L.drop sk else L))
      = (if lim = 0 then L.drop sk else (L.drop sk).take lim) := by
  cases sk with
  | zero => cases lim <;> simp
  | succ m => cases lim <;> simp [Nat.succ_pos]

/-- Ten documents with distinct ranks, stored in scrambled order. -/
def pagCollection : Collection :=
  ⟨[[("rank", Value.vInt 7), ("is_deleted", Value.vBool false)],
    [("rank", Value.vInt 2), ("is_deleted", Value.vBool false)],
    [("rank", Value.vInt 9), ("is_deleted", Value.vBool false)],
    [("rank", Value.vInt 4), ("is_deleted", Value.vBool false)],
    [("rank", Value.vInt 1), ("is_deleted", Value.vBool false)],
    [("rank", Value.vInt 8), ("is_deleted", Value.vBool false)],
    [("rank", Value.vInt 3), ("is_deleted", Value.vBool false)],
    [("rank", Value.vInt 10), ("is_deleted", Value.vBool false)],
    [("rank", Value.vInt 5), ("is_deleted", Value.vBool false)],
    [("rank", Value.vInt 6), ("is_deleted", Value.vBool false)]], 11⟩

/-- C6: `find_many` realizes sort before skip and skip before limit,
with `limit = 0` meaning unbounded and `skip = 0` meaning no offset;
on ten ranked documents, `skip = 3`, `limit = 4` yields exactly the
documents ranked 4 through 7 in sort order. -/
theorem claim_C6 :
    (∀ (c : Collection) (q : Doc) (b : Bool) (sp : List (String × Int)) (lim sk : Nat),
      (find_many c q b (some sp) lim sk).1
        = (let L := insertionSort (docLe sp)
            (c.docs.filter (fun d => matchesQuery d
              (if b then q else setVal q "is_deleted" (Value.vBool false))));
           if lim = 0 then L.drop sk else (L.drop sk).take lim))
    ∧ (∀ (c : Collection) (q : Doc) (b : Bool) (lim sk : Nat),
      (find_many c q b none lim sk).1
        = (let L := c.docs.filter (fun d => matchesQuery d
            (if b then q else setVal q "is_deleted" (Value.vBool false)));
           if lim = 0 then L.drop sk else (L.drop sk).take lim))
    ∧ (find_many pagCollection [] false (some [("rank", (1 : Int))]) 4 3).1
        = [[("rank", Value.vInt 4), ("is_deleted", Value.vBool false)],
           [("rank", Value.vInt 5), ("is_deleted", Value.vBool false)],
           [("rank", Value.vInt 6), ("is_deleted", Value.vBool false)],
           [("rank", Value.vInt 7), ("is_deleted", Value.vBool false)]] := by
  refine ⟨?_, ?_, by decide⟩
  · intro c q b sp lim sk
    exact skip_limit_norm _ lim sk
  · intro c q b lim sk
    exact skip_limit_norm _ lim sk

/-- C7 (amended): `connect` is a no-op whenever the handle field is
non-null; on a null handle it assigns handle and database reference
first and probes second, so a failed probe raises the error but leaves
the fresh handle in place (a handle can therefore exist without a
successful probe); `connect` never clears the handle, and a client
whose construction succeeded did pass the probe. -/
theorem claim_C7 (p : Bool) (n : String) (s : ClientState) :
    (s.client.isSome = true → connect p n s = (s, none))
    ∧ (s.client = none →
        (connect p n s).1 = { client := some (), db := some n }
        ∧ ((connect p n s).2 = none ↔ p = true))
    ∧ (connect p n s).1.client.isSome = true
    ∧ (∀ s0, initClient p n = Except.ok s0 →
        p = true ∧ s0 = { client := some (), db := some n }) := by
  refine ⟨?_, ?_, ?_, ?_⟩
  · intro h
    simp [connect, h]
  · intro h
    have h2 : s.client.isSome = false := by simp [h]
    cases p <;> simp [connect, h2]
  · by_cases hc : s.client.isSome = true
    · simp [connect, hc]
    · cases p <;> simp [connect, hc]
  · intro s0 h
    cases p
    · simp [initClient, connect] at h
    · simp [initClient, connect] at h
      exact ⟨rfl, h.symm⟩

/-- Counterexample to C7 as stated: with a failing probe from the
fresh state, the handle field ends up set (the state every later
`connect` treats as connected, returning no error) even though no
liveness probe ever succeeded. -/
theorem claim_C7_counterexample :
    (connect false "fitness_db" { client := none, db := none }).1.client = some ()
    ∧ (connect false "fitness_db" { client := none, db := none }).2
        = some ConnError.connectionFailure
    ∧ connect false "fitness_db" (connect false "fitness_db" { client := none, db := none }).1
        = ((connect false "fitness_db" { client := none, db := none }).1, none) := by
  exact ⟨rfl, rfl, rfl⟩

/-- Witness for C7: the no-op branch on a live handle, and the
successful fresh connection. -/
theorem claim_C7_witness :
    connect true "fitness_db" { client := some (), db := some "fitness_db" }
      = ({ client := some (), db := some "fitness_db" }, none)
    ∧ (connect true "fitness_db" { client := none, db := none }).1
      = { client := some (), db := some "fitness_db" }
    ∧ (connect true "fitness_db" { client := none, db := none }).2 = none :=
  ⟨(claim_C7 true "fitness_db" { client := some (), db := some "fitness_db" }).1 rfl,
   ((claim_C7 true "fitness_db" { client := none, db := none }).2.1 rfl).1,
   (((claim_C7 true "fitness_db" { client := none, db := none }).2.1 rfl).2).mpr rfl⟩

/-- C8: `ensure_validation` fails with the schema-not-found error
exactly when no file under the schema root matches the schema
filename; when the schema loads, it returns successfully (also when
the collection already existed), the collection exists afterwards,
and the loaded schema is installed as its validator at strict level. -/
theorem claim_C8 (fs : List SchemaFile) (db : DBV) (cn fn : String) (schema : Doc)
    (hok : load_validation_schema fs fn = Except.ok schema) :
    (∀ (fs2 : List SchemaFile) (db2 : DBV),
      (ensure_validation fs2 db2 cn fn = Except.error LoadError.schemaNotFound
        ↔ ∀ f ∈ fs2, f.name ≠ fn))
    ∧ ensure_validation fs db cn fn
        = Except.ok (collMod (createCollection db cn).1 cn schema "strict")
    ∧ collectionExists (collMod (createCollection db cn).1 cn schema "strict") cn = true
    ∧ validatorOf (collMod (createCollection db cn).1 cn schema "strict") cn
        = some (schema, "strict") := by
  refine ⟨?_, ?_, ?_, ?_⟩
  · intro fs2 db2
    cases hf : fs2.find? (fun f => f.name = fn) with
    | none =>
      constructor
      · intro _ f hmem hname
        have := List.find?_eq_none.mp hf f hmem
        simp [hname] at this
      · intro _
        simp [ensure_validation, load_validation_schema, hf]
    | some f =>
      have hname : f.name = fn := by
        have := List.find?_some hf
        simpa using this
      have hmem : f ∈ fs2 := List.mem_of_find?_eq_some hf
      constructor
      · intro h
        cases hc : f.content with
        | none => simp [ensure_validation, load_validation_schema, hf, hc] at h
        | some sc => simp [ensure_validation, load_validation_schema, hf, hc] at h
      · intro h
        exact absurd hname (h f hmem)
  · simp only [ensure_validation, hok]
  · exact collMod_exists _ cn schema "strict" (createCollection_exists db cn)
  · exact collMod_validator _ cn schema "strict" (createCollection_exists db cn)

/-- Schema files present in the witness scenario. -/
def fsW : List SchemaFile :=
  [⟨"user_schema.json", some [("bsonType", Value.vStr "object")]⟩]

/-- Witness for C8: a found schema is installed as a strict validator
on a freshly created collection. -/
theorem claim_C8_witness :
    ensure_validation fsW ⟨[]⟩ "users" "user_schema.json"
      = Except.ok (collMod (createCollection ⟨[]⟩ "users").1 "users"
          [("bsonType", Value.vStr "object")] "strict")
    ∧ validatorOf (collMod (createCollection ⟨[]⟩ "users").1 "users"
          [("bsonType", Value.vStr "object")] "strict") "users"
        = some ([("bsonType", Value.vStr "object")], "strict") :=
  ⟨(claim_C8 fsW ⟨[]⟩ "users" "user_schema.json" [("bsonType", Value.vStr "object")] rfl).2.1,
   (claim_C8 fsW ⟨[]⟩ "users" "user_schema.json" [("bsonType", Value.vStr "object")] rfl).2.2.2⟩

/-- C9: `close` nulls the handle and database references, is a no-op
(and idempotent) on an already-closed client, and scope exit calls
`close` unconditionally, whatever exception information accompanies
it.  The hypothesis is the invariant, maintained by every operation of
the client, that a null handle comes with a null database reference. -/
theorem claim_C9 (s : ClientState) (e : Option String)
    (hInv : s.client = none → s.db = none) :
    (close s).client = none
    ∧ (close s).db = none
    ∧ (s.client = none → close s = s)
    ∧ close (close s) = close s
    ∧ exitScope s e = close s := by
  by_cases hc : s.client.isSome = true
  · refine ⟨by simp [close, hc], by simp [close, hc], ?_, ?_, rfl⟩
    · intro h
      rw [h] at hc
      simp at hc
    · simp [close, hc]
  · have hnone : s.client = none := by
      cases hs : s.client
      · rfl
      · rw [hs] at hc; simp at hc
    have hdb := hInv hnone
    refine ⟨by simp [close, hc, hnone], by simp [close, hc, hdb],
      fun _ => by simp [close, hc], by simp [close, hc], rfl⟩

/-- Witness for C9 on an open client carrying exception information at
scope exit. -/
theorem claim_C9_witness :
    (close { client := some (), db := some "fitness_db" }).client = none
    ∧ (close { client := some (), db := some "fitness_db" }).db = none :=
  ⟨(claim_C9 { client := some (), db := some "fitness_db" } (some "boom") (by decide)).1,
   (claim_C9 { client := some (), db := some "fitness_db" } (some "boom") (by decide)).2.1⟩

/-- C10: `find_one` and `find_many` with the default flag mutate the
caller-supplied query mapping in place (the caller mapping afterwards
contains `is_deleted: false`), and `insert_one` and `insert_many` set
`is_deleted = false` in place on the caller-supplied documents; the
embedding models the absence of a defensive copy by returning, as the
caller-visible mapping, the very object handed to the driver. -/
theorem claim_C10 (c : Collection) (q d : Doc) (L : List Doc)
    (sort : Option (List (String × Int))) (lim sk : Nat) :
    (find_one c q false).2 = setVal q "is_deleted" (Value.vBool false)
    ∧ getVal (find_one c q false).2 "is_deleted" = some (Value.vBool false)
    ∧ (find_many c q false sort lim sk).2 = setVal q "is_deleted" (Value.vBool false)
    ∧ getVal (insert_one c d).2.2 "is_deleted" = some (Value.vBool false)
    ∧ (∀ d2 ∈ (insert_many c L).2.2, getVal d2 "is_deleted" = some (Value.vBool false)) := by
  refine ⟨rfl, getVal_setVal_self q _ _, rfl,
    insertDoc_flag c _ (getVal_setVal_self d "is_deleted" (Value.vBool false)), ?_⟩
  intro d2 h2
  refine insertManyDocs_out_mem _ c ?_ d2 h2
  intro d3 h3
  rcases List.mem_map.mp h3 with ⟨d0, _, rfl⟩
  exact getVal_setVal_self d0 "is_deleted" (Value.vBool false)

/-- Witness for C10: a caller document that arrives with
`is_deleted = true` is seen mutated to `is_deleted = false` after the
call, both for `insert_one` and for a member of the `insert_many`
batch. -/
theorem claim_C10_witness :
    getVal (insert_one ⟨[], 0⟩ [("is_deleted", Value.vBool true)]).2.2 "is_deleted"
      = some (Value.vBool false)
    ∧ getVal [("x", Value.vInt 1), ("is_deleted", Value.vBool false), ("_id", Value.vInt 0)]
        "is_deleted" = some (Value.vBool false) :=
  ⟨(claim_C10 ⟨[], 0⟩ [] [("is_deleted", Value.vBool true)] [] none 0 0).2.2.2.1,
   (claim_C10 ⟨[], 0⟩ [] [] [[("x", Value.vInt 1)]] none 0 0).2.2.2.2
     [("x", Value.vInt 1), ("is_deleted", Value.vBool false), ("_id", Value.vInt 0)]
     (by decide)⟩

end GngBackend
